import Mathlib

/-!
# Verification of the cache/coin economy core of `cmpm-121-demo-3`

Shallow embedding of `src/main.ts` (the revision with the Memento store,
reset button and persisted movement trail).  JavaScript `Map`s become
association lists with unique keys (`mapGet` / `mapSet`), JS numbers used
as integers become `Int`, geographic coordinates become exact rationals,
and the deterministic `luck` oracle (`src/luck.ts`, not part of the core
under verification) is threaded as an explicit function parameter
`luck : String → ℚ`.
-/

/-- A coin: identity type `{ id: string }` (`main.ts`, cache state). -/
structure Coin where
  id : String
deriving DecidableEq, Repr

/-- A cache value: `{ coins: { id: string }[] }` (`main.ts`, cache state). -/
structure Cache where
  coins : List Coin
deriving DecidableEq, Repr

/-- `Map.get k` on an association list: the value of the first binding of `k`
(JS `Map` keys are unique, so this is the binding of `k`). -/
def mapGet {α : Type} (k : String) : List (String × α) → Option α
  | [] => none
  | (k', v) :: rest => if k' = k then some v else mapGet k rest

/-- `Map.set k v` on an association list: replace the binding of `k` if
present, otherwise append a new binding (JS `Map` insertion order). -/
def mapSet {α : Type} (m : List (String × α)) (k : String) (v : α) :
    List (String × α) :=
  match m with
  | [] => [(k, v)]
  | (k', v') :: rest =>
      if k' = k then (k, v) :: rest else (k', v') :: mapSet rest k v

/-- The whole mutable module state of `main.ts`: player position and coins,
the `caches`, `knownTiles` and `cacheMementos` maps, and the movement
history polyline (as its list of lat/lng points). -/
structure GameState where
  playerCoins : Int
  playerPosition : Int × Int
  caches : List (String × Cache)
  knownTiles : List String
  cacheMementos : List (String × Cache)
  movementHistory : List (ℚ × ℚ)
deriving DecidableEq, Repr

/-- `TILE_DEGREES = 1e-4` (`main.ts`). -/
def TILE_DEGREES : ℚ := 1 / 10000

/-- `OAKES_GRID = { i: 369894, j: -1220627 }` (`main.ts`). -/
def OAKES_GRID : Int × Int := (369894, -1220627)

/-- `NEIGHBORHOOD_SIZE = 8` (`main.ts`). -/
def NEIGHBORHOOD_SIZE : Int := 8

/-- The initial module state of `main.ts`: `playerCoins =
INITIAL_PLAYER_COINS = 0`, `playerPosition = { ...OAKES_GRID }`, all maps
empty, no movement history. -/
def initialState : GameState where
  playerCoins := 0
  playerPosition := OAKES_GRID
  caches := []
  knownTiles := []
  cacheMementos := []
  movementHistory := []

/-- The template string `` `${i},${j}` `` used as cache key (`main.ts`,
`spawnCache`). -/
def cacheKeyOf (i j : Int) : String :=
  Int.repr i ++ "," ++ Int.repr j

/-- The oracle key `[i, j, "coins"].toString()` (`main.ts`, `spawnCache`). -/
def coinsLuckKey (i j : Int) : String :=
  Int.repr i ++ "," ++ Int.repr j ++ ",coins"

/-- The coin id template `` `${cacheKey}#${serial}` `` (`main.ts`,
`spawnCache` and `handleDeposit`). -/
def mkCoinId (cacheKey : String) (serial : Nat) : String :=
  cacheKey ++ "#" ++ Nat.repr serial

/-- `Array.from({ length: n }, (_, serial) => ({ id: `${cacheKey}#${serial}` }))`
(`main.ts`, `spawnCache`): the generated coin list of a cache. -/
def cacheCoins (cacheKey : String) (n : Nat) : List Coin :=
  (List.range n).map fun serial => ⟨mkCoinId cacheKey serial⟩

/-- `Math.max(1, Math.floor(luck([i, j, "coins"].toString()) * 10))`
(`main.ts`, `spawnCache`): initial coin count of a freshly generated
cache. -/
def initialCoinCount (luck : String → ℚ) (i j : Int) : Nat :=
  (max 1 ⌊luck (coinsLuckKey i j) * 10⌋).toNat

/-- `handleCollect(cacheKey)` (`main.ts`): if the cache exists and is
non-empty, `coins.pop()` (drop the last coin) and `playerCoins++`. -/
def handleCollect (cacheKey : String) (s : GameState) : GameState :=
  match mapGet cacheKey s.caches with
  | none => s
  | some cache =>
      if cache.coins.length > 0 then
        { s with
          caches := mapSet s.caches cacheKey ⟨cache.coins.dropLast⟩
          playerCoins := s.playerCoins + 1 }
      else s

/-- `handleDeposit(cacheKey)` (`main.ts`): if the cache exists and
`playerCoins > 0`, push `{ id: `${cacheKey}#${cache.coins.length}` }` and
`playerCoins--`. -/
def handleDeposit (cacheKey : String) (s : GameState) : GameState :=
  match mapGet cacheKey s.caches with
  | none => s
  | some cache =>
      if s.playerCoins > 0 then
        { s with
          caches := mapSet s.caches cacheKey
            ⟨cache.coins ++ [⟨mkCoinId cacheKey cache.coins.length⟩]⟩
          playerCoins := s.playerCoins - 1 }
      else s

/-- `spawnCache(map, i, j)` (`main.ts`), state part only (the Leaflet
rectangle/popup wiring is presentation): if no memento is recorded for the
cell, generate one; then install a deep copy
(`JSON.parse(JSON.stringify(...))`) of the memento as the live cache. -/
def spawnCache (luck : String → ℚ) (i j : Int) (s : GameState) : GameState :=
  let cacheKey := cacheKeyOf i j
  let mementos :=
    if (mapGet cacheKey s.cacheMementos).isSome then s.cacheMementos
    else
      mapSet s.cacheMementos cacheKey
        ⟨cacheCoins cacheKey (initialCoinCount luck i j)⟩
  { s with
    cacheMementos := mementos
    caches :=
      mapSet s.caches cacheKey ((mapGet cacheKey mementos).getD ⟨[]⟩) }

/-- A collect or deposit event, keyed by cache key (the only two
cache/player transfer operations of `main.ts`). -/
inductive Op where
  | collect (cacheKey : String)
  | deposit (cacheKey : String)
deriving DecidableEq, Repr

/-- Apply one transfer operation. -/
def applyOp (s : GameState) : Op → GameState
  | .collect k => handleCollect k s
  | .deposit k => handleDeposit k s

/-- Run a finite sequence of collect/deposit operations. -/
def runOps (s : GameState) (ops : List Op) : GameState :=
  ops.foldl applyOp s

/-- The sum of the coin counts of all live caches, as an integer. -/
def cachesTotal (m : List (String × Cache)) : Int :=
  (m.map fun kv => (kv.2.coins.length : Int)).sum

/-- Player coins plus the coin counts of all live caches. -/
def totalCoins (s : GameState) : Int :=
  s.playerCoins + cachesTotal s.caches

theorem mapGet_mapSet_self {α : Type} (m : List (String × α)) (k : String)
    (v : α) : mapGet k (mapSet m k v) = some v := by
  induction m with
  | nil => simp [mapGet, mapSet]
  | cons kv rest ih =>
      obtain ⟨k', v'⟩ := kv
      by_cases h : k' = k <;> simp [mapGet, mapSet, h, ih]

theorem mapSet_of_mapGet_none {α : Type} {m : List (String × α)} {k : String}
    (v : α) (h : mapGet k m = none) : mapSet m k v = m ++ [(k, v)] := by
  induction m with
  | nil => simp [mapSet]
  | cons kv rest ih =>
      obtain ⟨k', v'⟩ := kv
      by_cases hk : k' = k
      · simp [mapGet, hk] at h
      · simp [mapGet, hk] at h
        simp [mapSet, hk, ih h]

theorem mem_mapSet {α : Type} {m : List (String × α)} {k : String} {v : α}
    {kv : String × α} (h : kv ∈ mapSet m k v) : kv ∈ m ∨ kv = (k, v) := by
  induction m with
  | nil => simp [mapSet] at h; simp [h]
  | cons kv' rest ih =>
      obtain ⟨k', v'⟩ := kv'
      by_cases hk : k' = k
      · simp [mapSet, hk] at h
        rcases h with h | h
        · right; simp [h]
        · left; simp [h]
      · simp [mapSet, hk] at h
        rcases h with h | h
        · left; simp [h]
        · rcases ih h with h' | h'
          · left; simp [h']
          · right; exact h'

theorem mapGet_mem {α : Type} {m : List (String × α)} {k : String} {v : α}
    (h : mapGet k m = some v) : (k, v) ∈ m := by
  induction m with
  | nil => simp [mapGet] at h
  | cons kv rest ih =>
      obtain ⟨k', v'⟩ := kv
      by_cases hk : k' = k
      · subst hk
        simp [mapGet] at h
        simp [h]
      · simp [mapGet, hk] at h
        simp [ih h]

theorem cachesTotal_mapSet_some {m : List (String × Cache)} {k : String}
    {c : Cache} (v : Cache) (h : mapGet k m = some c) :
    cachesTotal (mapSet m k v) + c.coins.length =
      cachesTotal m + v.coins.length := by
  induction m with
  | nil => simp [mapGet] at h
  | cons kv rest ih =>
      obtain ⟨k', v'⟩ := kv
      by_cases hk : k' = k
      · subst hk
        simp [mapGet] at h
        subst h
        simp [mapSet, cachesTotal]
        ring
      · simp [mapGet, hk] at h
        simp [mapSet, hk, cachesTotal] at ih ⊢
        have := ih h
        ring_nf
        ring_nf at this
        omega

theorem cachesTotal_mapSet_none {m : List (String × Cache)} {k : String}
    (v : Cache) (h : mapGet k m = none) :
    cachesTotal (mapSet m k v) = cachesTotal m + v.coins.length := by
  rw [mapSet_of_mapGet_none v h]
  simp [cachesTotal]

theorem cacheCoins_length (k : String) (n : Nat) :
    (cacheCoins k n).length = n := by
  simp [cacheCoins]

theorem handleCollect_total (k : String) (s : GameState) :
    totalCoins (handleCollect k s) = totalCoins s := by
  unfold handleCollect
  cases h : mapGet k s.caches with
  | none => rfl
  | some c =>
      by_cases hl : c.coins.length > 0
      · have hs := cachesTotal_mapSet_some (m := s.caches) (k := k)
          (⟨c.coins.dropLast⟩ : Cache) h
        simp only [List.length_dropLast] at hs
        simp only [hl, if_pos, totalCoins]
        omega
      · simp [hl, totalCoins]

theorem handleDeposit_total (k : String) (s : GameState) :
    totalCoins (handleDeposit k s) = totalCoins s := by
  unfold handleDeposit
  cases h : mapGet k s.caches with
  | none => rfl
  | some c =>
      by_cases hp : s.playerCoins > 0
      · have hs := cachesTotal_mapSet_some (m := s.caches) (k := k)
          (⟨c.coins ++ [⟨mkCoinId k c.coins.length⟩]⟩ : Cache) h
        simp only [List.length_append, List.length_cons, List.length_nil] at hs
        simp only [hp, if_pos, totalCoins]
        omega
      · simp [hp, totalCoins]

/-- C1: a collect or deposit never changes the sum of player coins and all
live cache coin counts; materializing a cell whose memento is recorded and
whose live cache agrees with the memento in coin count also leaves the sum
unchanged; only materializing a cell with no recorded memento (and no live
cache) mints new coins, increasing the sum by the generated count. -/
theorem transfer_conservation (luck : String → ℚ) (s : GameState)
    (k : String) (i j : Int) :
    totalCoins (handleCollect k s) = totalCoins s ∧
    totalCoins (handleDeposit k s) = totalCoins s ∧
    (∀ m c, mapGet (cacheKeyOf i j) s.cacheMementos = some m →
      mapGet (cacheKeyOf i j) s.caches = some c →
      c.coins.length = m.coins.length →
      totalCoins (spawnCache luck i j s) = totalCoins s) ∧
    (mapGet (cacheKeyOf i j) s.cacheMementos = none →
      mapGet (cacheKeyOf i j) s.caches = none →
      totalCoins (spawnCache luck i j s) =
        totalCoins s + initialCoinCount luck i j) := by
  refine ⟨handleCollect_total k s, handleDeposit_total k s, ?_, ?_⟩
  · intro m c hm hc hlen
    unfold spawnCache
    simp only [hm, Option.isSome_some, if_pos, Option.getD_some]
    have hs := cachesTotal_mapSet_some (m := s.caches) (k := cacheKeyOf i j)
      m hc
    simp only [totalCoins]
    omega
  · intro hm hc
    unfold spawnCache
    simp only [hm, Option.isSome_none, Bool.false_eq_true, if_neg,
      not_false_iff, mapGet_mapSet_self, Option.getD_some]
    have hs := cachesTotal_mapSet_none (m := s.caches) (k := cacheKeyOf i j)
      (⟨cacheCoins (cacheKeyOf i j) (initialCoinCount luck i j)⟩ : Cache) hc
    simp only [totalCoins, cacheCoins_length] at hs ⊢
    omega

/-- An example concrete state with one cache at "0,0" holding 3 coins and
a matching memento, used by several witnesses. -/
def exampleState : GameState where
  playerCoins := 0
  playerPosition := (0, 0)
  caches := [(cacheKeyOf 0 0, ⟨cacheCoins (cacheKeyOf 0 0) 3⟩)]
  knownTiles := [cacheKeyOf 0 0]
  cacheMementos := [(cacheKeyOf 0 0, ⟨cacheCoins (cacheKeyOf 0 0) 3⟩)]
  movementHistory := []

/-- A concrete oracle giving 0.35 on every key. -/
def exampleLuck : String → ℚ := fun _ => 7 / 20

theorem transfer_conservation_witness :
    (mapGet (cacheKeyOf 0 0) exampleState.cacheMementos =
        some ⟨cacheCoins (cacheKeyOf 0 0) 3⟩ ∧
      mapGet (cacheKeyOf 0 0) exampleState.caches =
        some ⟨cacheCoins (cacheKeyOf 0 0) 3⟩) ∧
    totalCoins (handleCollect (cacheKeyOf 0 0) exampleState) =
      totalCoins exampleState ∧
    totalCoins (spawnCache exampleLuck 0 0 exampleState) =
      totalCoins exampleState :=
  ⟨⟨by decide, by decide⟩,
    (transfer_conservation exampleLuck exampleState (cacheKeyOf 0 0) 0 0).1,
    (transfer_conservation exampleLuck exampleState (cacheKeyOf 0 0) 0 0).2.2.1
      ⟨cacheCoins (cacheKeyOf 0 0) 3⟩ ⟨cacheCoins (cacheKeyOf 0 0) 3⟩
      (by decide) (by decide) (by decide)⟩

theorem applyOp_playerCoins_nonneg {s : GameState} (op : Op)
    (h : 0 ≤ s.playerCoins) : 0 ≤ (applyOp s op).playerCoins := by
  cases op with
  | collect k =>
      simp only [applyOp, handleCollect]
      cases mapGet k s.caches with
      | none => exact h
      | some c =>
          by_cases hl : c.coins.length > 0 <;> simp [hl] <;> omega
  | deposit k =>
      simp only [applyOp, handleDeposit]
      cases mapGet k s.caches with
      | none => exact h
      | some c =>
          by_cases hp : s.playerCoins > 0 <;> simp [hp] <;> omega

theorem runOps_playerCoins_nonneg (ops : List Op) :
    ∀ s : GameState, 0 ≤ s.playerCoins → 0 ≤ (runOps s ops).playerCoins := by
  induction ops with
  | nil => intro s h; exact h
  | cons op rest ih =>
      intro s h
      exact ih (applyOp s op) (applyOp_playerCoins_nonneg op h)

/-- C2: starting from a state with zero player coins, after any finite
sequence of collect/deposit operations the player coin count and every
live cache's coin count are still non-negative. -/
theorem run_nonneg (s0 : GameState) (ops : List Op)
    (h : s0.playerCoins = 0) :
    0 ≤ (runOps s0 ops).playerCoins ∧
    ∀ kv ∈ (runOps s0 ops).caches, (0 : Int) ≤ kv.2.coins.length := by
  refine ⟨runOps_playerCoins_nonneg ops s0 (by omega), ?_⟩
  intro kv _
  exact Int.natCast_nonneg _

theorem run_nonneg_witness :
    exampleState.playerCoins = 0 ∧
    (0 ≤ (runOps exampleState
        [.collect (cacheKeyOf 0 0), .deposit (cacheKeyOf 0 0),
          .deposit (cacheKeyOf 0 0)]).playerCoins ∧
      ∀ kv ∈ (runOps exampleState
        [.collect (cacheKeyOf 0 0), .deposit (cacheKeyOf 0 0),
          .deposit (cacheKeyOf 0 0)]).caches,
        (0 : Int) ≤ kv.2.coins.length) :=
  ⟨by decide,
    run_nonneg exampleState
      [.collect (cacheKeyOf 0 0), .deposit (cacheKeyOf 0 0),
        .deposit (cacheKeyOf 0 0)] (by decide)⟩

theorem cacheCoins_concat (k : String) (n : Nat) :
    cacheCoins k n ++ [⟨mkCoinId k n⟩] = cacheCoins k (n + 1) := by
  simp [cacheCoins, List.range_succ]

theorem cacheCoins_dropLast (k : String) (n : Nat) :
    (cacheCoins k (n + 1)).dropLast = cacheCoins k n := by
  rw [← cacheCoins_concat]
  exact List.dropLast_concat

theorem cacheCoins_getLast? (k : String) (n : Nat) :
    (cacheCoins k (n + 1)).getLast? = some ⟨mkCoinId k n⟩ := by
  rw [← cacheCoins_concat]
  exact List.getLast?_concat _

/-- C5: on a materialized cache with `n + 1` coins, `handleCollect` pops
the last coin (under the canonical coin layout, the one with the highest
serial `n`), leaves `n` coins, and increments the player count by one; on
a materialized cache with `0` coins it returns the state unchanged (the
operation is total: no error is raised). -/
theorem collect_spec (s : GameState) (k : String) (c : Cache)
    (h : mapGet k s.caches = some c) :
    (∀ n, c.coins.length = n + 1 →
      (handleCollect k s).playerCoins = s.playerCoins + 1 ∧
      mapGet k (handleCollect k s).caches = some ⟨c.coins.dropLast⟩ ∧
      c.coins.dropLast.length = n ∧
      (c.coins = cacheCoins k (n + 1) →
        mapGet k (handleCollect k s).caches = some ⟨cacheCoins k n⟩ ∧
        c.coins.getLast? = some ⟨mkCoinId k n⟩)) ∧
    (c.coins.length = 0 → handleCollect k s = s) := by
  constructor
  · intro n hn
    have hpos : c.coins.length > 0 := by omega
    refine ⟨?_, ?_, ?_, ?_⟩
    · simp [handleCollect, h, hpos]
    · simp [handleCollect, h, hpos, mapGet_mapSet_self]
    · simp [List.length_dropLast, hn]
    · intro hcanon
      constructor
      · simp [handleCollect, h, hpos, mapGet_mapSet_self, hcanon,
          cacheCoins_dropLast, cacheCoins_length]
      · rw [hcanon]
        exact cacheCoins_getLast? k n
  · intro hz
    simp [handleCollect, h, hz]

theorem collect_spec_witness :
    (mapGet (cacheKeyOf 0 0) exampleState.caches =
        some ⟨cacheCoins (cacheKeyOf 0 0) 3⟩ ∧
      (cacheCoins (cacheKeyOf 0 0) 3).length = 2 + 1) ∧
    ((handleCollect (cacheKeyOf 0 0) exampleState).playerCoins =
        exampleState.playerCoins + 1 ∧
      mapGet (cacheKeyOf 0 0)
          (handleCollect (cacheKeyOf 0 0) exampleState).caches =
        some ⟨cacheCoins (cacheKeyOf 0 0) 2⟩ ∧
      (cacheCoins (cacheKeyOf 0 0) 3).getLast? =
        some ⟨mkCoinId (cacheKeyOf 0 0) 2⟩) :=
  ⟨⟨by decide, by decide⟩,
    ⟨((collect_spec exampleState (cacheKeyOf 0 0)
          ⟨cacheCoins (cacheKeyOf 0 0) 3⟩ (by decide)).1 2 (by decide)).1,
      (((collect_spec exampleState (cacheKeyOf 0 0)
          ⟨cacheCoins (cacheKeyOf 0 0) 3⟩ (by decide)).1 2 (by decide)).2.2.2
        (by decide)).1,
      (((collect_spec exampleState (cacheKeyOf 0 0)
          ⟨cacheCoins (cacheKeyOf 0 0) 3⟩ (by decide)).1 2 (by decide)).2.2.2
        (by decide)).2⟩⟩

/-- C6: on a materialized cache, when the player holds at least one coin,
`handleDeposit` appends exactly one freshly minted coin whose serial is
the cache's coin count before the deposit and decrements the player count
by one; when the player holds zero coins it returns the state unchanged. -/
theorem deposit_spec (s : GameState) (k : String) (c : Cache)
    (h : mapGet k s.caches = some c) :
    (0 < s.playerCoins →
      (handleDeposit k s).playerCoins = s.playerCoins - 1 ∧
      mapGet k (handleDeposit k s).caches =
        some ⟨c.coins ++ [⟨mkCoinId k c.coins.length⟩]⟩ ∧
      ((mapGet k (handleDeposit k s).caches).map fun c' =>
          c'.coins.length) = some (c.coins.length + 1)) ∧
    (s.playerCoins = 0 → handleDeposit k s = s) := by
  constructor
  · intro hp
    refine ⟨?_, ?_, ?_⟩
    · simp [handleDeposit, h, hp]
    · simp [handleDeposit, h, hp, mapGet_mapSet_self]
    · simp [handleDeposit, h, hp, mapGet_mapSet_self]
  · intro hz
    simp [handleDeposit, h, hz]

theorem deposit_spec_witness :
    (mapGet (cacheKeyOf 0 0) exampleState.caches =
        some ⟨cacheCoins (cacheKeyOf 0 0) 3⟩ ∧
      exampleState.playerCoins = 0) ∧
    handleDeposit (cacheKeyOf 0 0) exampleState = exampleState ∧
    (0 < (handleCollect (cacheKeyOf 0 0) exampleState).playerCoins ∧
      (handleDeposit (cacheKeyOf 0 0)
          (handleCollect (cacheKeyOf 0 0) exampleState)).playerCoins =
        (handleCollect (cacheKeyOf 0 0) exampleState).playerCoins - 1 ∧
      mapGet (cacheKeyOf 0 0)
          (handleDeposit (cacheKeyOf 0 0)
            (handleCollect (cacheKeyOf 0 0) exampleState)).caches =
        some ⟨cacheCoins (cacheKeyOf 0 0) 2 ++
          [⟨mkCoinId (cacheKeyOf 0 0) 2⟩]⟩) :=
  ⟨⟨by decide, by decide⟩,
    (deposit_spec exampleState (cacheKeyOf 0 0)
        ⟨cacheCoins (cacheKeyOf 0 0) 3⟩ (by decide)).2 (by decide),
    by decide,
    ((deposit_spec (handleCollect (cacheKeyOf 0 0) exampleState)
        (cacheKeyOf 0 0) ⟨cacheCoins (cacheKeyOf 0 0) 2⟩ (by decide)).1
      (by decide)).1,
    ((deposit_spec (handleCollect (cacheKeyOf 0 0) exampleState)
        (cacheKeyOf 0 0) ⟨cacheCoins (cacheKeyOf 0 0) 2⟩ (by decide)).1
      (by decide)).2.1⟩

/-- `gridToLatLng` (`main.ts`): `origin.lat + i * TILE_DEGREES`,
`origin.lng + j * TILE_DEGREES` with origin `(0, 0)` (Null Island);
geographic degrees are modelled as exact rationals. -/
def gridToLatLng (p : Int × Int) : ℚ × ℚ :=
  (0 + p.1 * TILE_DEGREES, 0 + p.2 * TILE_DEGREES)

/-- `latLngToGrid` (`main.ts`): `Math.round((lat - origin.lat) /
TILE_DEGREES)` on both axes with origin `(0, 0)`; JS `Math.round` is
round-half-up, which is Mathlib's `round` on `ℚ`. -/
def latLngToGrid (p : ℚ × ℚ) : Int × Int :=
  (round ((p.1 - 0) / TILE_DEGREES), round ((p.2 - 0) / TILE_DEGREES))

/-- C7: converting a grid cell to geographic coordinates (origin `(0,0)`,
tile size `1e-4` degrees) and back with round-to-nearest recovers the
cell. -/
theorem grid_round_trip (p : Int × Int) :
    latLngToGrid (gridToLatLng p) = p := by
  obtain ⟨i, j⟩ := p
  have hτ : TILE_DEGREES ≠ 0 := by norm_num [TILE_DEGREES]
  simp only [latLngToGrid, gridToLatLng, zero_add, sub_zero,
    mul_div_cancel_right₀ _ hτ]
  simp

/-- Rebuild a `Map` from saved entries: `clear()` then `set` each entry in
order (used by the reset handler and by `loadGameState` in `main.ts`). -/
def rebuildMap (entries : List (String × Cache)) : List (String × Cache) :=
  entries.foldl (fun acc kv => mapSet acc kv.1 kv.2) []

/-- The state part of the reset button handler (`main.ts`,
`initializeResetButton`): player back to `OAKES_GRID` with
`INITIAL_PLAYER_COINS`, caches rebuilt as deep copies of all mementos,
known tiles cleared, movement history removed.  (The handler then calls
`spawnCaches`, modelled separately.) -/
def resetState (s : GameState) : GameState where
  playerCoins := 0
  playerPosition := OAKES_GRID
  caches := rebuildMap s.cacheMementos
  knownTiles := []
  cacheMementos := s.cacheMementos
  movementHistory := []

theorem applyOp_cacheMementos (s : GameState) (op : Op) :
    (applyOp s op).cacheMementos = s.cacheMementos := by
  cases op with
  | collect k =>
      simp only [applyOp, handleCollect]
      cases mapGet k s.caches with
      | none => rfl
      | some c => by_cases hl : c.coins.length > 0 <;> simp [hl]
  | deposit k =>
      simp only [applyOp, handleDeposit]
      cases mapGet k s.caches with
      | none => rfl
      | some c => by_cases hp : s.playerCoins > 0 <;> simp [hp]

theorem runOps_cacheMementos (ops : List Op) :
    ∀ s : GameState, (runOps s ops).cacheMementos = s.cacheMementos := by
  induction ops with
  | nil => intro s; rfl
  | cons op rest ih =>
      intro s
      calc (runOps (applyOp s op) rest).cacheMementos
          = (applyOp s op).cacheMementos := ih (applyOp s op)
        _ = s.cacheMementos := applyOp_cacheMementos s op

theorem spawnCache_of_memento (luck : String → ℚ) (s : GameState)
    (i j : Int) (m : Cache)
    (hm : mapGet (cacheKeyOf i j) s.cacheMementos = some m) :
    mapGet (cacheKeyOf i j) (spawnCache luck i j s).caches = some m ∧
    (spawnCache luck i j s).cacheMementos = s.cacheMementos := by
  constructor
  · simp [spawnCache, hm, mapGet_mapSet_self]
  · simp [spawnCache, hm]

/-- C3: when a memento is recorded for a cell, materializing installs the
memento's coin list as the live cache by value; any sequence of
collect/deposit operations leaves the memento store untouched, and after
a reset followed by re-materialization the cache again holds exactly the
memento's (originally generated) coins. -/
theorem memento_restore (luck : String → ℚ) (s : GameState) (i j : Int)
    (m : Cache)
    (hm : mapGet (cacheKeyOf i j) s.cacheMementos = some m) :
    mapGet (cacheKeyOf i j) (spawnCache luck i j s).caches = some m ∧
    (∀ ops : List Op,
      (runOps (spawnCache luck i j s) ops).cacheMementos =
        s.cacheMementos ∧
      mapGet (cacheKeyOf i j)
          (spawnCache luck i j
            (resetState (runOps (spawnCache luck i j s) ops))).caches =
        some m ∧
      ((mapGet (cacheKeyOf i j)
          (spawnCache luck i j
            (resetState (runOps (spawnCache luck i j s) ops))).caches).map
          fun c => c.coins.length) = some m.coins.length) := by
  obtain ⟨h1, h2⟩ := spawnCache_of_memento luck s i j m hm
  refine ⟨h1, fun ops => ?_⟩
  have hrun : (runOps (spawnCache luck i j s) ops).cacheMementos =
      s.cacheMementos := by
    rw [runOps_cacheMementos, h2]
  have hreset :
      (resetState (runOps (spawnCache luck i j s) ops)).cacheMementos =
        s.cacheMementos := hrun
  have hm' : mapGet (cacheKeyOf i j)
      (resetState (runOps (spawnCache luck i j s) ops)).cacheMementos =
      some m := by rw [hreset]; exact hm
  obtain ⟨h3, _⟩ := spawnCache_of_memento luck _ i j m hm'
  exact ⟨hrun, h3, by rw [h3]; rfl⟩

theorem memento_restore_witness :
    mapGet (cacheKeyOf 0 0) exampleState.cacheMementos =
      some ⟨cacheCoins (cacheKeyOf 0 0) 3⟩ ∧
    mapGet (cacheKeyOf 0 0)
        (spawnCache exampleLuck 0 0 exampleState).caches =
      some ⟨cacheCoins (cacheKeyOf 0 0) 3⟩ ∧
    ((mapGet (cacheKeyOf 0 0)
        (spawnCache exampleLuck 0 0
          (resetState (runOps (spawnCache exampleLuck 0 0 exampleState)
            [.collect (cacheKeyOf 0 0),
              .collect (cacheKeyOf 0 0)]))).caches).map
        fun c => c.coins.length) =
      some (cacheCoins (cacheKeyOf 0 0) 3).length :=
  ⟨by decide,
    (memento_restore exampleLuck exampleState 0 0
      ⟨cacheCoins (cacheKeyOf 0 0) 3⟩ (by decide)).1,
    ((memento_restore exampleLuck exampleState 0 0
      ⟨cacheCoins (cacheKeyOf 0 0) 3⟩ (by decide)).2
      [.collect (cacheKeyOf 0 0), .collect (cacheKeyOf 0 0)]).2.2⟩

/-- C4: materializing a cell with no recorded memento generates a cache
holding exactly `max(1, floor(luck(i, j, "coins") * 10))` coins, which is
always at least 1. -/
theorem spawn_initial_coin_count (luck : String → ℚ) (s : GameState)
    (i j : Int)
    (h : mapGet (cacheKeyOf i j) s.cacheMementos = none) :
    mapGet (cacheKeyOf i j) (spawnCache luck i j s).caches =
      some ⟨cacheCoins (cacheKeyOf i j) (initialCoinCount luck i j)⟩ ∧
    ((mapGet (cacheKeyOf i j) (spawnCache luck i j s).caches).map
        fun c => c.coins.length) =
      some (max 1 ⌊luck (coinsLuckKey i j) * 10⌋).toNat ∧
    (∀ c, mapGet (cacheKeyOf i j) (spawnCache luck i j s).caches = some c →
      1 ≤ c.coins.length) := by
  have h1 : mapGet (cacheKeyOf i j) (spawnCache luck i j s).caches =
      some ⟨cacheCoins (cacheKeyOf i j) (initialCoinCount luck i j)⟩ := by
    simp [spawnCache, h, mapGet_mapSet_self]
  refine ⟨h1, ?_, ?_⟩
  · rw [h1]
    simp [cacheCoins_length, initialCoinCount]
  · intro c hc
    rw [h1] at hc
    cases hc
    simp only [cacheCoins_length, initialCoinCount]
    have hmax : (1 : Int) ≤ max 1 ⌊luck (coinsLuckKey i j) * 10⌋ :=
      le_max_left _ _
    omega

theorem spawn_initial_coin_count_witness :
    mapGet (cacheKeyOf 0 0) initialState.cacheMementos = none ∧
    mapGet (cacheKeyOf 0 0)
        (spawnCache exampleLuck 0 0 initialState).caches =
      some ⟨cacheCoins (cacheKeyOf 0 0) 3⟩ :=
  ⟨by decide, by
    have h :=
      (spawn_initial_coin_count exampleLuck initialState 0 0 (by decide)).1
    have h3 : initialCoinCount exampleLuck 0 0 = 3 := by
      simp only [initialCoinCount, exampleLuck]
      norm_num
      rfl
    rw [h3] at h
    exact h⟩

/-- The persisted snapshot shape (`main.ts`, `saveGameState`):
`{ playerPosition, playerCoins, caches: Array.from(caches.entries()),
movementHistory }`. -/
structure Snapshot where
  playerPosition : Int × Int
  playerCoins : Int
  caches : List (String × Cache)
  movementHistory : List (ℚ × ℚ)
deriving DecidableEq, Repr

/-- `saveGameState()` (`main.ts`): capture player position, player coins,
all live cache entries and the movement-history points into a snapshot
(the `JSON.stringify` + `localStorage.setItem` I/O is the external
collaborator). -/
def saveGameState (s : GameState) : Snapshot where
  playerPosition := s.playerPosition
  playerCoins := s.playerCoins
  caches := s.caches
  movementHistory := s.movementHistory

/-- The restore part of `loadGameState()` (`main.ts`):
`Object.assign(playerPosition, savedPos)`, `playerCoins = coins`,
`caches.clear()` then `set` each saved entry, and rebuild the movement
polyline from the saved points.  `knownTiles` and `cacheMementos` are not
restored. -/
def applySnapshot (snap : Snapshot) (s : GameState) : GameState :=
  { s with
    playerPosition := snap.playerPosition
    playerCoins := snap.playerCoins
    caches := rebuildMap snap.caches
    movementHistory := snap.movementHistory }

/-- `loadGameState()` (`main.ts`): read `localStorage.getItem("gameState")`
(`none` when missing); a falsy (empty) string is treated as missing;
otherwise `JSON.parse` the blob — modelled by the `parse` parameter, which
returns `.error` exactly when `JSON.parse` would throw a `SyntaxError` —
and restore.  `loadGameState` has no `try`/`catch`, so a parse error
propagates out of the call instead of being handled. -/
def loadGameState (parse : String → Except String Snapshot)
    (stored : Option String) (s : GameState) : Except String GameState :=
  match stored with
  | none => .ok s
  | some str =>
      if str = "" then .ok s
      else
        match parse str with
        | .error e => .error e
        | .ok snap => .ok (applySnapshot snap s)

/-- C8 counterexample: loading a stored blob that `JSON.parse` rejects
does not fall back to the default initial state — the parse error
propagates (the claim's "falls back to the default initial state without
throwing" is false on the code). -/
theorem load_corrupt_counterexample :
    loadGameState (fun _ => .error "SyntaxError: Unexpected token")
        (some "not json") initialState =
      .error "SyntaxError: Unexpected token" ∧
    ¬∃ s', loadGameState (fun _ => .error "SyntaxError: Unexpected token")
        (some "not json") initialState = .ok s' := by
  constructor
  · rfl
  · rintro ⟨s', h⟩
    simp [loadGameState] at h

/-- C8 (amended): loading with a missing (or falsy empty) stored snapshot
leaves the in-place state — at startup, the default initial state —
unchanged; loading a corrupt (unparseable) snapshot propagates the
`JSON.parse` error rather than falling back. -/
theorem load_missing_or_corrupt (parse : String → Except String Snapshot)
    (s : GameState) :
    loadGameState parse none s = .ok s ∧
    (∀ str e, str ≠ "" → parse str = .error e →
      loadGameState parse (some str) s = .error e) := by
  refine ⟨rfl, fun str e hne hp => ?_⟩
  simp [loadGameState, hne, hp]

theorem load_missing_or_corrupt_witness :
    ((fun _ => (.error "SyntaxError: Unexpected token" :
        Except String Snapshot)) "not json" =
      .error "SyntaxError: Unexpected token") ∧
    loadGameState (fun _ => .error "SyntaxError: Unexpected token") none
        initialState = .ok initialState ∧
    loadGameState (fun _ => .error "SyntaxError: Unexpected token")
        (some "not json") initialState =
      .error "SyntaxError: Unexpected token" :=
  ⟨rfl,
    (load_missing_or_corrupt
      (fun _ => .error "SyntaxError: Unexpected token") initialState).1,
    (load_missing_or_corrupt
      (fun _ => .error "SyntaxError: Unexpected token") initialState).2
      "not json" "SyntaxError: Unexpected token" (by decide) rfl⟩

theorem mapGet_append {α : Type} (k : String) (a b : List (String × α)) :
    mapGet k (a ++ b) =
      match mapGet k a with
      | some v => some v
      | none => mapGet k b := by
  induction a with
  | nil => simp [mapGet]
  | cons kv rest ih =>
      obtain ⟨k', v'⟩ := kv
      by_cases hk : k' = k <;> simp [mapGet, hk, ih]

theorem foldl_mapSet_eq_append (l acc : List (String × Cache))
    (hnd : (l.map Prod.fst).Nodup)
    (hfresh : ∀ k ∈ l.map Prod.fst, mapGet k acc = none) :
    l.foldl (fun m kv => mapSet m kv.1 kv.2) acc = acc ++ l := by
  induction l generalizing acc with
  | nil => simp
  | cons kv rest ih =>
      obtain ⟨k, v⟩ := kv
      simp only [List.map_cons, List.nodup_cons] at hnd
      have hka : mapGet k acc = none := hfresh k (by simp)
      have step : mapSet acc k v = acc ++ [(k, v)] :=
        mapSet_of_mapGet_none v hka
      simp only [List.foldl_cons, step]
      rw [ih (acc ++ [(k, v)]) hnd.2]
      · simp
      · intro k' hk'
        rw [mapGet_append]
        have hk'a : mapGet k' acc = none := hfresh k' (by simp [hk'])
        have hne : k ≠ k' := fun h => hnd.1 (h ▸ hk')
        simp [hk'a, mapGet, hne, Ne.symm hne]

theorem rebuildMap_eq_self (l : List (String × Cache))
    (hnd : (l.map Prod.fst).Nodup) : rebuildMap l = l := by
  have := foldl_mapSet_eq_append l [] hnd (by intro k _; rfl)
  simpa [rebuildMap] using this

/-- C9: saving a state whose cache map has (as every JS `Map` does)
unique keys, then loading the produced snapshot, reproduces the player
position, player coin count, the live cache entries (same keys, same coin
sequences, same order) and the movement trail. -/
theorem save_load_round_trip (s s0 : GameState)
    (parse : String → Except String Snapshot) (str : String)
    (hkeys : (s.caches.map Prod.fst).Nodup) (hne : str ≠ "")
    (hp : parse str = .ok (saveGameState s)) :
    loadGameState parse (some str) s0 =
      .ok (applySnapshot (saveGameState s) s0) ∧
    (applySnapshot (saveGameState s) s0).playerPosition =
      s.playerPosition ∧
    (applySnapshot (saveGameState s) s0).playerCoins = s.playerCoins ∧
    (applySnapshot (saveGameState s) s0).caches = s.caches ∧
    (applySnapshot (saveGameState s) s0).movementHistory =
      s.movementHistory := by
  refine ⟨?_, rfl, rfl, ?_, rfl⟩
  · simp [loadGameState, hne, hp]
  · simp [applySnapshot, saveGameState, rebuildMap_eq_self s.caches hkeys]

/-- A state with nontrivial coins, cache and trail, saved and reloaded in
the C9 witness. -/
def exampleSaved : GameState where
  playerCoins := 2
  playerPosition := (1, -2)
  caches := [(cacheKeyOf 1 (-2), ⟨cacheCoins (cacheKeyOf 1 (-2)) 1⟩)]
  knownTiles := [cacheKeyOf 1 (-2)]
  cacheMementos := [(cacheKeyOf 1 (-2), ⟨cacheCoins (cacheKeyOf 1 (-2)) 4⟩)]
  movementHistory := [(0, 0), (1 / 10000, -2 / 10000)]

theorem save_load_round_trip_witness :
    ((exampleSaved.caches.map Prod.fst).Nodup ∧ "snapshot blob" ≠ "" ∧
      (fun _ => (.ok (saveGameState exampleSaved) :
        Except String Snapshot)) "snapshot blob" =
        .ok (saveGameState exampleSaved)) ∧
    (loadGameState (fun _ => .ok (saveGameState exampleSaved))
        (some "snapshot blob") initialState =
      .ok (applySnapshot (saveGameState exampleSaved) initialState) ∧
    (applySnapshot (saveGameState exampleSaved) initialState).playerCoins =
      exampleSaved.playerCoins ∧
    (applySnapshot (saveGameState exampleSaved) initialState).caches =
      exampleSaved.caches ∧
    (applySnapshot (saveGameState exampleSaved)
        initialState).movementHistory = exampleSaved.movementHistory) :=
  ⟨⟨by decide, by decide, rfl⟩,
    (save_load_round_trip exampleSaved initialState
      (fun _ => .ok (saveGameState exampleSaved)) "snapshot blob"
      (by decide) (by decide) rfl).1,
    (save_load_round_trip exampleSaved initialState
      (fun _ => .ok (saveGameState exampleSaved)) "snapshot blob"
      (by decide) (by decide) rfl).2.2.1,
    (save_load_round_trip exampleSaved initialState
      (fun _ => .ok (saveGameState exampleSaved)) "snapshot blob"
      (by decide) (by decide) rfl).2.2.2.1,
    (save_load_round_trip exampleSaved initialState
      (fun _ => .ok (saveGameState exampleSaved)) "snapshot blob"
      (by decide) (by decide) rfl).2.2.2.2⟩

/-- The decimal digit characters of a natural number, most significant
first: a structural (fuel-free) form of core's `Nat.toDigitsCore 10`. -/
def digitsBase10 (n : Nat) : List Char :=
  if _h : n < 10 then [Nat.digitChar n]
  else digitsBase10 (n / 10) ++ [Nat.digitChar (n % 10)]
decreasing_by exact Nat.div_lt_self (by omega) (by omega)

theorem digitsBase10_lt {n : Nat} (h : n < 10) :
    digitsBase10 n = [Nat.digitChar n] := by
  unfold digitsBase10
  simp [h]

theorem digitsBase10_ge {n : Nat} (h : ¬n < 10) :
    digitsBase10 n = digitsBase10 (n / 10) ++ [Nat.digitChar (n % 10)] := by
  conv_lhs => unfold digitsBase10
  simp [h]

theorem digitsBase10_ne_nil (n : Nat) : digitsBase10 n ≠ [] := by
  by_cases h : n < 10
  · rw [digitsBase10_lt h]; simp
  · rw [digitsBase10_ge h]; simp

theorem toDigitsCore_eq_digitsBase10 :
    ∀ (fuel n : Nat) (ds : List Char), n < fuel →
      Nat.toDigitsCore 10 fuel n ds = digitsBase10 n ++ ds := by
  intro fuel
  induction fuel with
  | zero => intro n ds h; omega
  | succ f ih =>
      intro n ds h
      show (if n / 10 = 0 then Nat.digitChar (n % 10) :: ds
        else Nat.toDigitsCore 10 f (n / 10) (Nat.digitChar (n % 10) :: ds)) =
        digitsBase10 n ++ ds
      by_cases h0 : n / 10 = 0
      · have hlt : n < 10 := by omega
        rw [if_pos h0, digitsBase10_lt hlt, Nat.mod_eq_of_lt hlt]
        rfl
      · have hge : ¬n < 10 := by omega
        have hdiv : n / 10 < f := by omega
        rw [if_neg h0, ih (n / 10) _ hdiv, digitsBase10_ge hge]
        simp

theorem repr_data_eq_digitsBase10 (n : Nat) :
    (Nat.repr n).data = digitsBase10 n := by
  show (Nat.toDigitsCore 10 (n + 1) n []).asString.data = digitsBase10 n
  rw [toDigitsCore_eq_digitsBase10 (n + 1) n [] (by omega)]
  simp [List.asString]

theorem digitChar_injOn :
    ∀ a, a < 10 → ∀ b, b < 10 → Nat.digitChar a = Nat.digitChar b →
      a = b := by decide

theorem digitsBase10_injective :
    ∀ m n : Nat, digitsBase10 m = digitsBase10 n → m = n := by
  intro m
  induction m using Nat.strong_induction_on with
  | _ m ih =>
      intro n h
      by_cases hm : m < 10 <;> by_cases hn : n < 10
      · rw [digitsBase10_lt hm, digitsBase10_lt hn] at h
        exact digitChar_injOn m hm n hn (by injection h)
      · exfalso
        rw [digitsBase10_lt hm, digitsBase10_ge hn] at h
        have hlen := congrArg List.length h
        simp only [List.length_singleton, List.length_append,
          List.length_cons, List.length_nil] at hlen
        exact digitsBase10_ne_nil (n / 10)
          (List.length_eq_zero.mp (by omega))
      · exfalso
        rw [digitsBase10_ge hm, digitsBase10_lt hn] at h
        have hlen := congrArg List.length h
        simp only [List.length_singleton, List.length_append,
          List.length_cons, List.length_nil] at hlen
        exact digitsBase10_ne_nil (m / 10)
          (List.length_eq_zero.mp (by omega))
      · rw [digitsBase10_ge hm, digitsBase10_ge hn] at h
        obtain ⟨h1, h2⟩ := List.append_inj' h (by simp)
        have hdiv : m / 10 = n / 10 :=
          ih (m / 10) (Nat.div_lt_self (by omega) (by omega)) (n / 10) h1
        have hmod : m % 10 = n % 10 :=
          digitChar_injOn _ (Nat.mod_lt _ (by omega)) _
            (Nat.mod_lt _ (by omega)) (by injection h2)
        omega

theorem mkCoinId_injOn (k : String) {a b : Nat}
    (h : mkCoinId k a = mkCoinId k b) : a = b := by
  have hdata := congrArg String.data h
  simp only [mkCoinId, String.data_append] at hdata
  have h1 := List.append_cancel_left hdata
  rw [repr_data_eq_digitsBase10, repr_data_eq_digitsBase10] at h1
  exact digitsBase10_injective a b h1

theorem mkCoinId_fresh (k : String) (n : Nat) :
    mkCoinId k n ∉ (cacheCoins k n).map Coin.id := by
  intro hmem
  simp only [cacheCoins, List.map_map, List.mem_map, Function.comp,
    List.mem_range] at hmem
  obtain ⟨m, hm, he⟩ := hmem
  have := mkCoinId_injOn k he
  omega

/-- A cache keyed by `k` is canonical when its coins are exactly
`"k#0", "k#1", ..., "k#(len-1)"` in index order. -/
def cacheWF (k : String) (c : Cache) : Prop :=
  c.coins = cacheCoins k c.coins.length

instance (k : String) (c : Cache) : Decidable (cacheWF k c) :=
  inferInstanceAs (Decidable (c.coins = cacheCoins k c.coins.length))

/-- Every live cache and every memento is canonical for its own key. -/
def stateWF (s : GameState) : Prop :=
  (∀ kv ∈ s.caches, cacheWF kv.1 kv.2) ∧
  (∀ kv ∈ s.cacheMementos, cacheWF kv.1 kv.2)

instance (s : GameState) : Decidable (stateWF s) :=
  inferInstanceAs
    (Decidable ((∀ kv ∈ s.caches, cacheWF kv.1 kv.2) ∧
      (∀ kv ∈ s.cacheMementos, cacheWF kv.1 kv.2)))

theorem cacheWF_cacheCoins (k : String) (n : Nat) :
    cacheWF k ⟨cacheCoins k n⟩ := by
  unfold cacheWF
  simp [cacheCoins_length]

theorem cacheWF_dropLast {k : String} {c : Cache} (h : cacheWF k c) :
    cacheWF k ⟨c.coins.dropLast⟩ := by
  have hc : c.coins = cacheCoins k c.coins.length := h
  rw [show (⟨c.coins.dropLast⟩ : Cache) =
      ⟨(cacheCoins k c.coins.length).dropLast⟩ by rw [← hc]]
  cases hn : c.coins.length with
  | zero => simpa [cacheCoins] using cacheWF_cacheCoins k 0
  | succ m => rw [cacheCoins_dropLast]; exact cacheWF_cacheCoins k m

theorem cacheWF_mint {k : String} {c : Cache} (h : cacheWF k c) :
    cacheWF k ⟨c.coins ++ [⟨mkCoinId k c.coins.length⟩]⟩ := by
  have hc : c.coins = cacheCoins k c.coins.length := h
  rw [show (⟨c.coins ++ [⟨mkCoinId k c.coins.length⟩]⟩ : Cache) =
      ⟨cacheCoins k c.coins.length ++
        [⟨mkCoinId k c.coins.length⟩]⟩ by rw [← hc]]
  rw [cacheCoins_concat]
  exact cacheWF_cacheCoins k (c.coins.length + 1)

theorem stateWF_handleCollect (k : String) {s : GameState}
    (h : stateWF s) : stateWF (handleCollect k s) := by
  obtain ⟨hc, hm⟩ := h
  unfold handleCollect
  cases hget : mapGet k s.caches with
  | none => exact ⟨hc, hm⟩
  | some c =>
      by_cases hl : c.coins.length > 0
      · simp only [hl, if_pos]
        refine ⟨?_, hm⟩
        intro kv hkv
        rcases mem_mapSet hkv with h' | h'
        · exact hc kv h'
        · rw [h']
          exact cacheWF_dropLast (hc (k, c) (mapGet_mem hget))
      · simp only [hl, if_neg, not_false_iff]
        exact ⟨hc, hm⟩

theorem stateWF_handleDeposit (k : String) {s : GameState}
    (h : stateWF s) : stateWF (handleDeposit k s) := by
  obtain ⟨hc, hm⟩ := h
  unfold handleDeposit
  cases hget : mapGet k s.caches with
  | none => exact ⟨hc, hm⟩
  | some c =>
      by_cases hp : s.playerCoins > 0
      · simp only [hp, if_pos]
        refine ⟨?_, hm⟩
        intro kv hkv
        rcases mem_mapSet hkv with h' | h'
        · exact hc kv h'
        · rw [h']
          exact cacheWF_mint (hc (k, c) (mapGet_mem hget))
      · simp only [hp, if_neg, not_false_iff]
        exact ⟨hc, hm⟩

theorem stateWF_spawnCache (luck : String → ℚ) (i j : Int) {s : GameState}
    (h : stateWF s) : stateWF (spawnCache luck i j s) := by
  obtain ⟨hc, hm⟩ := h
  unfold spawnCache
  by_cases hmem : (mapGet (cacheKeyOf i j) s.cacheMementos).isSome
  · obtain ⟨m, hm'⟩ := Option.isSome_iff_exists.mp hmem
    simp only [hm', Option.isSome_some, if_true, Option.getD_some]
    refine ⟨?_, hm⟩
    intro kv hkv
    rcases mem_mapSet hkv with h' | h'
    · exact hc kv h'
    · rw [h']
      exact hm (cacheKeyOf i j, m) (mapGet_mem hm')
  · have hnone : mapGet (cacheKeyOf i j) s.cacheMementos = none :=
      Option.not_isSome_iff_eq_none.mp hmem
    simp only [hnone, Option.isSome_none, Bool.false_eq_true, if_false,
      mapGet_mapSet_self, Option.getD_some]
    constructor
    · intro kv hkv
      rcases mem_mapSet hkv with h' | h'
      · exact hc kv h'
      · rw [h']
        exact cacheWF_cacheCoins _ _
    · intro kv hkv
      rcases mem_mapSet hkv with h' | h'
      · exact hm kv h'
      · rw [h']
        exact cacheWF_cacheCoins _ _

theorem mem_foldl_mapSet {l acc : List (String × Cache)}
    {kv : String × Cache}
    (h : kv ∈ l.foldl (fun m p => mapSet m p.1 p.2) acc) :
    kv ∈ acc ∨ kv ∈ l := by
  induction l generalizing acc with
  | nil => exact Or.inl h
  | cons p rest ih =>
      simp only [List.foldl_cons] at h
      rcases ih h with h' | h'
      · rcases mem_mapSet h' with h'' | h''
        · exact Or.inl h''
        · exact Or.inr (by simp [h''])
      · exact Or.inr (List.mem_cons_of_mem _ h')

theorem stateWF_resetState {s : GameState} (h : stateWF s) :
    stateWF (resetState s) := by
  obtain ⟨_, hm⟩ := h
  refine ⟨?_, hm⟩
  intro kv hkv
  have hkv' : kv ∈ rebuildMap s.cacheMementos := hkv
  rcases @mem_foldl_mapSet s.cacheMementos [] kv hkv' with h' | h'
  · simp at h'
  · exact hm kv h'

/-- C10: the canonical coin-id invariant — every live cache and memento
at key `k` holds exactly the coins `"k#0", ..., "k#(len-1)"` in order —
is preserved by collect, deposit, materialization (both fresh generation
and memento restore) and reset; under it, the last coin of a non-empty
cache carries the highest serial, and a freshly minted deposit id never
duplicates an id already present in that cache. -/
theorem cache_canonical_invariant (luck : String → ℚ) (s : GameState)
    (k : String) (i j : Int) (n : Nat) :
    (stateWF s →
      stateWF (handleCollect k s) ∧ stateWF (handleDeposit k s) ∧
      stateWF (spawnCache luck i j s) ∧ stateWF (resetState s)) ∧
    (cacheCoins k (n + 1)).getLast? = some ⟨mkCoinId k n⟩ ∧
    (∀ c ∈ cacheCoins k (n + 1), ∃ m, m ≤ n ∧ c = ⟨mkCoinId k m⟩) ∧
    mkCoinId k n ∉ (cacheCoins k n).map Coin.id := by
  refine ⟨fun h => ⟨stateWF_handleCollect k h, stateWF_handleDeposit k h,
    stateWF_spawnCache luck i j h, stateWF_resetState h⟩,
    cacheCoins_getLast? k n, ?_, mkCoinId_fresh k n⟩
  intro c hc
  simp only [cacheCoins, List.mem_map, List.mem_range] at hc
  obtain ⟨m, hm, he⟩ := hc
  exact ⟨m, by omega, he.symm⟩

theorem cache_canonical_invariant_witness :
    stateWF exampleState ∧
    (stateWF (handleCollect (cacheKeyOf 0 0) exampleState) ∧
      stateWF (handleDeposit (cacheKeyOf 0 0) exampleState) ∧
      stateWF (spawnCache exampleLuck 0 0 exampleState) ∧
      stateWF (resetState exampleState)) ∧
    (cacheCoins (cacheKeyOf 0 0) 3).getLast? =
      some ⟨mkCoinId (cacheKeyOf 0 0) 2⟩ ∧
    mkCoinId (cacheKeyOf 0 0) 2 ∉
      (cacheCoins (cacheKeyOf 0 0) 2).map Coin.id :=
  ⟨by decide,
    (cache_canonical_invariant exampleLuck exampleState (cacheKeyOf 0 0)
      0 0 2).1 (by decide),
    (cache_canonical_invariant exampleLuck exampleState (cacheKeyOf 0 0)
      0 0 2).2.1,
    (cache_canonical_invariant exampleLuck exampleState (cacheKeyOf 0 0)
      0 0 2).2.2.2⟩
